import Mathlib

/-! Verification of the text-chunking and search error-handling core of a
document-indexing pipeline (`helper/chunker.py`, `chunker.py`,
`index_documents.py`, `search_documents.py`, `helper/database.py`).

Python strings are modelled as `List Char`; the whitespace predicate models
Python's `str.strip` / regex `\s` on the ASCII range.  Python `int`
parameters that are compared against lengths are modelled as `Int` at the
validated entry points and as `Nat` inside the pure cores (truncation via
`Int.toNat` agrees with the Python comparisons: for `max_len ≤ 0` the test
`len(buffer) + len(s) < max_len` is false, exactly as `_ < 0` is).
Fallible Python functions (those that `raise`) return `Except PyErr`.
-/

/-- Python whitespace characters (ASCII range): space, `\t`, `\n`, `\r`,
`\x0b` (vertical tab), `\x0c` (form feed). -/
def pyIsSpace (c : Char) : Bool :=
  c = ' ' || c = '\t' || c = '\n' || c = '\r' || c = '\x0b' || c = '\x0c'

/-- Python `str.strip()`: drop leading and trailing whitespace. -/
def pyStrip (l : List Char) : List Char :=
  (l.dropWhile pyIsSpace).rdropWhile pyIsSpace

/-- Python truthiness of a string: `bool(s)` is `s ≠ ""`. -/
def pyTruthy (l : List Char) : Bool := !l.isEmpty

/-- A Python value passed where a `str` is expected: either an actual string
or some non-string object (the `isinstance(text, str)` checks only look at
the type). -/
inductive PyObj where
  | str (s : List Char)
  | other (tag : Nat)

/-- Python exceptions raised by the modelled code. -/
inductive PyErr where
  | valueError (msg : List Char)
  | typeError (msg : List Char)
  | fileNotFound (msg : List Char)
  | serviceFailure (msg : List Char)
deriving DecidableEq

/-- Worker for Python `str.split()` (no separator): `acc` is the reversed
current word; whitespace ends the word (empty words are not emitted). -/
def pySplitWsGo : List Char → List Char → List (List Char)
  | [], acc => if acc = [] then [] else [acc.reverse]
  | c :: rest, acc =>
      if pyIsSpace c then
        if acc = [] then pySplitWsGo rest []
        else acc.reverse :: pySplitWsGo rest []
      else pySplitWsGo rest (c :: acc)

/-- Python `str.split()` (no separator): maximal runs of non-whitespace. -/
def pySplitWs (l : List Char) : List (List Char) :=
  pySplitWsGo l []

/-- Model of `re.split(r'(?<=[.!?])\s+', text)`, one character at a time.  A split
happens at a maximal whitespace run whose preceding character is `.`, `!`
or `?`; the whitespace is consumed.  `prev` is the character preceding the
current position (the initial `\x00` stands for "no preceding character")
and `skipping` records that the machine is inside the whitespace run of a
match, consuming it. -/
def splitSentGo (l : List Char) (prev : Char) (skipping : Bool)
    (acc : List Char) : List (List Char) :=
  match l with
  | [] => [acc.reverse]
  | c :: rest =>
      if pyIsSpace c && skipping then
        splitSentGo rest c true acc
      else if pyIsSpace c && (prev = '.' || prev = '!' || prev = '?') then
        acc.reverse :: splitSentGo rest c true []
      else
        splitSentGo rest c false (c :: acc)

/-- Model of `re.split(r'(?<=[.!?])\s+', text)`. -/
def splitSentences (text : List Char) : List (List Char) :=
  splitSentGo text '\x00' false []

/-- The fixed abbreviation set `COMMON_ABBREVIATIONS` shared by both
chunker modules. -/
def COMMON_ABBREVIATIONS : List (List Char) :=
  [ "Mr.", "Mrs.", "Ms.", "Dr.", "Prof.", "Sr.", "Jr.",
    "St.", "Mt.", "Capt.", "Sgt.", "Col.", "Gen.",
    "Inc.", "Ltd.", "Co.", "Corp.",
    "e.g.", "i.e.", "etc.", "vs.",
    "U.S.", "U.S.A.", "U.K.", "EU.", "UN.",
    "Jan.", "Feb.", "Mar.", "Apr.", "Aug.", "Sept.", "Oct.", "Nov.", "Dec."
  ].map String.toList

/-- Model of `buffer.strip().split()[-1] if buffer.strip() else ""`. -/
def lastWord (buffer : List Char) : List Char :=
  if pyStrip buffer = [] then [] else (pySplitWs (pyStrip buffer)).getLastD []

/-- One iteration of the `for sentence in raw_sentences` loop of
`chunk_by_sentences`; state is `(chunks, buffer)`. -/
def sentStep (maxLen : Nat) (st : List (List Char) × List Char)
    (sentence : List Char) : List (List Char) × List Char :=
  let chunks := st.1
  let buffer := st.2
  if lastWord buffer ∈ COMMON_ABBREVIATIONS then
    (chunks, buffer ++ ' ' :: sentence)
  else if buffer.length + sentence.length < maxLen then
    (chunks, if buffer = [] then sentence else buffer ++ ' ' :: sentence)
  else
    ((if buffer = [] then chunks else chunks ++ [pyStrip buffer]), sentence)

/-- The body of `chunk_by_sentences` after its argument validation (this
loop is textually identical in `chunker.py` and `helper/chunker.py`). -/
def chunkBySentencesCore (text : List Char) (maxLen : Nat) :
    List (List Char) :=
  let raw_sentences := splitSentences text
  let st := raw_sentences.foldl (sentStep maxLen) ([], [])
  let chunks := if st.2 = [] then st.1 else st.1 ++ [pyStrip st.2]
  chunks.filter pyTruthy

/-- Model of `helper/chunker.py` `chunk_by_sentences(text, max_len)`: validates the
argument types, then runs the accumulation loop. -/
def chunk_by_sentences (text : PyObj) (max_len : Int) :
    Except PyErr (List (List Char)) :=
  match text with
  | .other _ => .error (.valueError "Input must be a string.".toList)
  | .str s =>
      if max_len ≤ 0 then
        .error (.valueError "max_len must be greater than 0.".toList)
      else
        .ok (chunkBySentencesCore s max_len.toNat)

/-- Model of `re.sub(r"\n\s*\n+", "\n\n", text)`: starting at a newline, a match
extends over the following whitespace run up to (and including) the last
newline in that run; the matched span is replaced by a blank line
(`"\n\n"`), and scanning resumes after it.  (With Python's
leftmost/greedy-with-backtracking matching, `\n\s*\n+` matches exactly the
span from the first newline through the last newline of the whitespace
run, and only when that run contains a second newline.)
The scanner keeps the pending whitespace run reversed in `pending`
(beginning at a newline, while no second newline has been seen) and sets
`matched` once the run is known to contain a second newline; whitespace
seen after the match's last newline is again collected in `pending`,
because it belongs to the text after the replaced span. -/
def normBlankGo : List Char → List Char → Bool → List Char
  | [], pending, matched =>
      if matched then '\n' :: '\n' :: pending.reverse else pending.reverse
  | c :: rest, pending, matched =>
      if c = '\n' then
        if matched then normBlankGo rest [] true
        else if pending = [] then normBlankGo rest ['\n'] false
        else normBlankGo rest [] true
      else if pyIsSpace c then
        if pending = [] && matched = false then c :: normBlankGo rest [] false
        else normBlankGo rest (c :: pending) matched
      else
        if matched then
          '\n' :: '\n' :: (pending.reverse ++ c :: normBlankGo rest [] false)
        else
          pending.reverse ++ c :: normBlankGo rest [] false

/-- Model of `re.sub(r"\n\s*\n+", "\n\n", text)`. -/
def normBlank (l : List Char) : List Char :=
  normBlankGo l [] false

/-- Model of `re.split(r"\n\s*\n", text)`: same matched spans as in `normBlank`
(the single trailing `\n` of the pattern lands on the last newline of the
whitespace run): the same scanner as `normBlankGo`, but the text between
matches is collected (reversed) in `acc` and emitted as a piece at each
match. -/
def splitParasGo : List Char → List Char → List Char → Bool → List (List Char)
  | [], acc, pending, matched =>
      if matched then [acc.reverse, pending.reverse]
      else [acc.reverse ++ pending.reverse]
  | c :: rest, acc, pending, matched =>
      if c = '\n' then
        if matched then splitParasGo rest acc [] true
        else if pending = [] then splitParasGo rest acc ['\n'] false
        else splitParasGo rest acc [] true
      else if pyIsSpace c then
        if pending = [] && matched = false then splitParasGo rest (c :: acc) [] false
        else splitParasGo rest acc (c :: pending) matched
      else
        if matched then
          acc.reverse :: splitParasGo rest (c :: pending) [] false
        else
          splitParasGo rest (c :: (pending ++ acc)) [] false

/-- Model of `re.split(r"\n\s*\n", text)`. -/
def splitParas (l : List Char) : List (List Char) :=
  splitParasGo l [] [] false

/-- The normalized-then-split paragraph list of `chunk_by_paragraphs`:
`paragraphs = re.split(r"\n\s*\n", re.sub(r"\n\s*\n+", "\n\n", text).strip())`. -/
def paragraphsOf (text : List Char) : List (List Char) :=
  splitParas (pyStrip (normBlank text))

/-- One iteration of the `for para in paragraphs` loop of
`chunk_by_paragraphs`; state is `(chunks, buffer)`.  Note that the
`else` branch appends `buffer.strip()` even when the buffer is empty. -/
def paraStep (maxLen : Nat) (st : List (List Char) × List Char)
    (para : List Char) : List (List Char) × List Char :=
  let chunks := st.1
  let buffer := st.2
  if buffer.length + para.length < maxLen then
    (chunks, buffer ++ '\n' :: '\n' :: para)
  else
    (chunks ++ [pyStrip buffer], para)

/-- The body of `chunk_by_paragraphs` after its argument validation. -/
def chunkByParagraphsCore (text : List Char) (maxLen : Nat) :
    List (List Char) :=
  let paragraphs := paragraphsOf text
  let st := paragraphs.foldl (paraStep maxLen) ([], [])
  let chunks := if st.2 = [] then st.1 else st.1 ++ [pyStrip st.2]
  chunks.filter pyTruthy

/-- Model of `helper/chunker.py` `chunk_by_paragraphs(text, max_len)`. -/
def chunk_by_paragraphs (text : PyObj) (max_len : Int) :
    Except PyErr (List (List Char)) :=
  match text with
  | .other _ => .error (.valueError "Input must be a string.".toList)
  | .str s =>
      if max_len ≤ 0 then
        .error (.valueError "max_len must be greater than 0.".toList)
      else
        .ok (chunkByParagraphsCore s max_len.toNat)

/-- The `while i < len(tokens)` loop of `chunk_fixed`, with an explicit
fuel bound standing for the number of remaining iterations: `none` means
the fuel ran out before the loop finished (for `size - overlap = 0` and a
non-empty text the Python loop never terminates).  Each iteration records
the raw window `tokens[i : i + size]` and advances `i` by
`size - overlap`. -/
def chunkFixedLoop (tokens : List Char) (size overlap : Nat) :
    Nat → Nat → Option (List (List Char))
  | _, 0 => none
  | i, fuel + 1 =>
      if i < tokens.length then
        match chunkFixedLoop tokens size overlap (i + (size - overlap)) fuel with
        | some ws => some (((tokens.drop i).take size) :: ws)
        | none => none
      else
        some []

/-- The raw (pre-trim) windows produced by `chunk_fixed`; `length + 1`
units of fuel always suffice when `overlap < size`
(`chunkFixedLoop_isSome` below). -/
def fixedWindows (text : List Char) (size overlap : Nat) : List (List Char) :=
  (chunkFixedLoop text size overlap 0 (text.length + 1)).getD []

/-- Model of `chunk_fixed(text, size, overlap)` of both chunker modules:
`"".join(chunk).strip()` for each raw window, dropping falsy results. -/
def chunk_fixed (text : List Char) (size overlap : Nat) : List (List Char) :=
  ((fixedWindows text size overlap).map pyStrip).filter pyTruthy

namespace RootChunker

/-- Top-level `chunker.py` `chunk_by_sentences(text, max_len)`: same loop
body and abbreviation set as the helper module, but with **no** argument
validation.  Passing a non-string makes `re.split` itself raise a
`TypeError`; a non-positive `max_len` is accepted and simply makes the
length test always false (`Int.toNat` collapses it to `0`, which compares
the same way). -/
def chunk_by_sentences (text : PyObj) (max_len : Int) :
    Except PyErr (List (List Char)) :=
  match text with
  | .other _ => .error (.typeError "expected string or bytes-like object".toList)
  | .str s => .ok (chunkBySentencesCore s max_len.toNat)

end RootChunker

/-- Step function `sentStep` instrumented with a flag recording whether the abbreviation
guard (`last_word in COMMON_ABBREVIATIONS`) fired at least once while the
current buffer was being built; each flushed chunk carries the flag of the
buffer it came from.  Erasing the flags gives back `sentStep`
(`chunkBySentencesG_fst` below). -/
def sentStepG (maxLen : Nat) (st : List (List Char × Bool) × List Char × Bool)
    (sentence : List Char) : List (List Char × Bool) × List Char × Bool :=
  let chunks := st.1
  let buffer := st.2.1
  let g := st.2.2
  if lastWord buffer ∈ COMMON_ABBREVIATIONS then
    (chunks, buffer ++ ' ' :: sentence, true)
  else if buffer.length + sentence.length < maxLen then
    (chunks, (if buffer = [] then sentence else buffer ++ ' ' :: sentence), g)
  else
    ((if buffer = [] then chunks else chunks ++ [(pyStrip buffer, g)]), sentence, false)

/-- The chunker `chunkBySentencesCore` instrumented with the abbreviation-guard flag. -/
def chunkBySentencesG (text : List Char) (maxLen : Nat) :
    List (List Char × Bool) :=
  let raw_sentences := splitSentences text
  let st := raw_sentences.foldl (sentStepG maxLen) ([], [], false)
  let chunks := if st.2.1 = [] then st.1 else st.1 ++ [(pyStrip st.2.1, st.2.2)]
  chunks.filter (fun c => pyTruthy c.1)

/-- Model of `build_where_clause(filename, strategy)` from `search_documents.py`:
SQL `WHERE` text plus the parameter list; a filter participates exactly
when it is truthy (present and non-empty). -/
def build_where_clause (filename strategy : Option (List Char)) :
    List Char × List (List Char) :=
  let ftruthy := match filename with | none => false | some f => pyTruthy f
  let struthy := match strategy with | none => false | some s => pyTruthy s
  let clauses :=
    (if ftruthy then ["filename = %s".toList] else []) ++
    (if struthy then ["split_strategy = %s".toList] else [])
  let values :=
    (if ftruthy then [filename.getD []] else []) ++
    (if struthy then [strategy.getD []] else [])
  ((if clauses = [] then [] else "WHERE ".toList ++ List.intercalate " AND ".toList clauses),
   values)

/-- A row returned by the store for the search query: `(id, chunk_text,
filename, split_strategy, created_at, cosine_sim)`.  The numeric
similarity is modelled as an `Int` stand-in (its value is never inspected
by the properties verified here); `created_at` is the ISO string it is
rendered to. -/
structure SearchRow where
  rid : Option Nat
  rtext : Option (List Char)
  rfname : Option (List Char)
  rstrat : Option (List Char)
  rcreated : Option (List Char)
  rsim : Option Int
deriving DecidableEq

/-- One entry of the list returned by `search_documents`.  `resId = none`
models the `"N/A"` fallback (Python also maps a falsy id, i.e. `0` or
`None`, to `"N/A"`). -/
structure SearchResult where
  resId : Option Nat
  resText : List Char
  resFname : List Char
  resStrat : List Char
  resCreated : Option (List Char)
  resScore : Int
deriving DecidableEq

/-- The per-row dictionary assembly of `search_documents`'s result loop. -/
def toSearchResult (r : SearchRow) : SearchResult where
  resId := match r.rid with
    | some n => if n = 0 then none else some n
    | none => none
  resText := r.rtext.getD []
  resFname := match r.rfname with
    | some f => if f = [] then "unknown".toList else f
    | none => "unknown".toList
  resStrat := match r.rstrat with
    | some s => if s = [] then "unspecified".toList else s
    | none => "unspecified".toList
  resCreated := r.rcreated
  resScore := r.rsim.getD 0

/-- Model of `search_documents(query_text, top_k, embed_fn=…, filename=…,
strategy=…)`.  The embedding function and the store interaction are
injected collaborators that may fail (`Except`); the `try`/`except`
around the whole body converts any such failure into an empty result
list.  `runQuery` receives the query vector, its dimension, the `WHERE`
clause with its parameters, and the limit, and returns the raw rows. -/
def search_documents {E : Type} (embed_fn : List Char → Except E (List Int))
    (runQuery : List Int → Nat → List Char × List (List Char) → Nat →
      Except E (List SearchRow))
    (query_text : List Char) (top_k : Nat)
    (filename strategy : Option (List Char)) : List SearchResult :=
  if pyStrip query_text = [] then []
  else
    match (do
      let q_vec ← embed_fn query_text
      let wc := build_where_clause filename strategy
      let rows ← runQuery q_vec q_vec.length wc top_k
      pure (rows.map toSearchResult) : Except E (List SearchResult)) with
    | .ok results => results
    | .error _ => []

/-- Model of `split_text(text, strategy)` from `index_documents.py`: dispatch on the
strategy name with the chunkers' default parameters; an unknown name
raises `ValueError`. -/
def split_text (text : List Char) (strategy : List Char) :
    Except PyErr (List (List Char)) :=
  if strategy = "fixed".toList then .ok (chunk_fixed text 800 200)
  else if strategy = "sentence".toList then chunk_by_sentences (.str text) 1000
  else if strategy = "paragraph".toList then chunk_by_paragraphs (.str text) 1200
  else .error (.valueError ("Unknown strategy: ".toList ++ strategy))

/-- Model of `embed_chunks(chunks)`: embed each chunk; a failing chunk is logged
and skipped (`try`/`except` inside the loop), never fatal. -/
def embed_chunks {E : Type} (get_embedding : List Char → Except E (List Int))
    (chunks : List (List Char)) : List (List Char × List Int) :=
  chunks.foldr
    (fun c acc =>
      match get_embedding c with
      | .ok e => (c, e) :: acc
      | .error _ => acc)
    []

/-- Python `x or default` for strings. -/
def pyOrElse (s d : List Char) : List Char := if s = [] then d else s

/-- Model of `insert_chunk(chunk_text, embedding, filename, strategy)` from
`helper/database.py`: one store insert wrapped in `try`/`except
Exception`; a failure is logged and the function returns normally, so the
result is `.ok ()` no matter what the store does. -/
def insert_chunk {E : Type}
    (store_insert : List Char → List Int → List Char → List Char → Except E Unit)
    (chunk_text : List Char) (embedding : List Int)
    (filename strategy : List Char) : Except E Unit :=
  match store_insert (pyOrElse chunk_text []) embedding
      (pyOrElse filename "unknown".toList)
      (pyOrElse strategy "unspecified".toList) with
  | .ok _ => .ok ()
  | .error _ => .ok ()

/-- Model of `save_chunks(chunk_data, filename, strategy)`: insert every
successfully embedded chunk; returns the per-item outcomes (all `.ok ()`
since `insert_chunk` never propagates). -/
def save_chunks {E : Type}
    (store_insert : List Char → List Int → List Char → List Char → Except E Unit)
    (chunk_data : List (List Char × List Int)) (filename strategy : List Char) :
    List (Except E Unit) :=
  chunk_data.map (fun item => insert_chunk store_insert item.1 item.2 filename strategy)

/-- Model of `process_file(path, strategy)` from `index_documents.py`: the whole
pipeline runs inside `try`/`except Exception`, which logs and falls off
the end — so the function returns normally (`.ok ()`) on every input,
including when `split_text` raises for an unknown strategy. -/
def process_file {E : Type} (load_file : List Char → Except PyErr (List Char))
    (get_embedding : List Char → Except E (List Int))
    (store_insert : List Char → List Int → List Char → List Char → Except E Unit)
    (path : List Char) (strategy : List Char) : Except PyErr Unit :=
  match (do
    let text ← load_file path
    let chunks ← split_text text strategy
    let chunks := chunks.filter (fun c => pyTruthy (pyStrip c))
    let embeddings := embed_chunks get_embedding chunks
    let _ := save_chunks store_insert embeddings path strategy
    pure () : Except PyErr Unit) with
  | .ok _ => .ok ()
  | .error _ => .ok ()

/-! Section: Helper lemmas -/

theorem headD_dropWhile_not (p : Char → Bool) (l : List Char) (a : Char)
    (h : l.dropWhile p ≠ []) : p ((l.dropWhile p).headD a) = false := by
  induction l with
  | nil => simp at h
  | cons c rest ih =>
      by_cases hc : p c
      · rw [List.dropWhile_cons_of_pos hc] at h ⊢
        exact ih h
      · rw [List.dropWhile_cons_of_neg hc]
        simpa using hc

theorem pyStrip_headD (l : List Char) (a : Char) (h : pyStrip l ≠ []) :
    pyIsSpace ((pyStrip l).headD a) = false := by
  have hpre : pyStrip l <+: l.dropWhile pyIsSpace := List.rdropWhile_prefix _ _
  obtain ⟨t, ht⟩ := hpre
  cases hx : pyStrip l with
  | nil => exact absurd hx h
  | cons c cs =>
      have hd : l.dropWhile pyIsSpace ≠ [] := by
        rw [← ht, hx]; simp
      have := headD_dropWhile_not pyIsSpace l a hd
      rw [← ht, hx] at this
      simpa [hx] using this

theorem pyStrip_not_all_space (l : List Char) (h : pyStrip l ≠ []) :
    (pyStrip l).all pyIsSpace = false := by
  cases hx : pyStrip l with
  | nil => exact absurd hx h
  | cons c cs =>
      have := pyStrip_headD l c h
      rw [hx] at this
      simp only [List.headD_cons] at this
      simp [this]

theorem pyStrip_length_le (l : List Char) : (pyStrip l).length ≤ l.length :=
  le_trans ( List.rdropWhile_prefix pyIsSpace _).length_le
    (List.dropWhile_suffix pyIsSpace).length_le

/-- Both chunk-accumulation step functions only ever extend the chunk list
with `pyStrip` images; folding therefore preserves that every collected
chunk is a `pyStrip` image. -/
theorem foldl_chunks_strip
    (step : (List (List Char) × List Char) → List Char →
      (List (List Char) × List Char))
    (hstep : ∀ st s, (step st s).1 = st.1 ∨
      (step st s).1 = st.1 ++ [pyStrip st.2]) :
    ∀ (l : List (List Char)) (st : List (List Char) × List Char),
      (∀ c ∈ st.1, ∃ w, c = pyStrip w) →
      ∀ c ∈ (l.foldl step st).1, ∃ w, c = pyStrip w := by
  intro l
  induction l with
  | nil => intro st hst c hc; exact hst c hc
  | cons s rest ih =>
      intro st hst c hc
      refine ih (step st s) ?_ c hc
      intro d hd
      rcases hstep st s with hkeep | happ
      · exact hst d (hkeep ▸ hd)
      · rw [happ] at hd
        rcases List.mem_append.mp hd with hold | hnew
        · exact hst d hold
        · exact ⟨st.2, by simpa using hnew⟩

theorem sentStep_chunks (m : Nat) (st : List (List Char) × List Char)
    (s : List Char) : (sentStep m st s).1 = st.1 ∨
      (sentStep m st s).1 = st.1 ++ [pyStrip st.2] := by
  unfold sentStep
  dsimp only
  split
  · left; rfl
  · split
    · left; rfl
    · split
      · left; rfl
      · right; rfl

theorem paraStep_chunks (m : Nat) (st : List (List Char) × List Char)
    (s : List Char) : (paraStep m st s).1 = st.1 ∨
      (paraStep m st s).1 = st.1 ++ [pyStrip st.2] := by
  unfold paraStep
  dsimp only
  split
  · left; rfl
  · right; rfl

/-- Every member of a `pyTruthy`-filtered list of `pyStrip` images is
non-empty and not whitespace-only. -/
theorem mem_filter_strip (l : List (List Char))
    (hl : ∀ c ∈ l, ∃ w, c = pyStrip w) :
    ∀ c ∈ l.filter pyTruthy, c ≠ [] ∧ c.all pyIsSpace = false := by
  intro c hc
  rcases List.mem_filter.mp hc with ⟨hmem, htru⟩
  have hne : c ≠ [] := by
    simp only [pyTruthy] at htru
    simpa using htru
  refine ⟨hne, ?_⟩
  obtain ⟨w, hw⟩ := hl c hmem
  rw [hw] at hne ⊢
  exact pyStrip_not_all_space w hne

theorem chunkBySentencesCore_clean (text : List Char) (m : Nat) :
    ∀ c ∈ chunkBySentencesCore text m, c ≠ [] ∧ c.all pyIsSpace = false := by
  unfold chunkBySentencesCore
  apply mem_filter_strip
  intro c hc
  have hfold := foldl_chunks_strip (sentStep m) (sentStep_chunks m)
    (splitSentences text) ([], []) (by simp)
  split at hc
  · exact hfold c hc
  · rcases List.mem_append.mp hc with hold | hnew
    · exact hfold c hold
    · exact ⟨_, by simpa using hnew⟩

theorem chunkByParagraphsCore_clean (text : List Char) (m : Nat) :
    ∀ c ∈ chunkByParagraphsCore text m, c ≠ [] ∧ c.all pyIsSpace = false := by
  unfold chunkByParagraphsCore
  apply mem_filter_strip
  intro c hc
  have hfold := foldl_chunks_strip (paraStep m) (paraStep_chunks m)
    (paragraphsOf text) ([], []) (by simp)
  split at hc
  · exact hfold c hc
  · rcases List.mem_append.mp hc with hold | hnew
    · exact hfold c hold
    · exact ⟨_, by simpa using hnew⟩

/-- C1: for every string input and valid parameters, none of the three
chunkers returns an empty or whitespace-only chunk. -/
theorem chunkers_no_blank_chunks :
    (∀ (text : List Char) (size overlap : Nat), overlap < size →
      ∀ c ∈ chunk_fixed text size overlap, c ≠ [] ∧ c.all pyIsSpace = false) ∧
    (∀ (text : List Char) (max_len : Int) (cs : List (List Char)),
      chunk_by_sentences (.str text) max_len = .ok cs →
      ∀ c ∈ cs, c ≠ [] ∧ c.all pyIsSpace = false) ∧
    (∀ (text : List Char) (max_len : Int) (cs : List (List Char)),
      chunk_by_paragraphs (.str text) max_len = .ok cs →
      ∀ c ∈ cs, c ≠ [] ∧ c.all pyIsSpace = false) := by
  refine ⟨?_, ?_, ?_⟩
  · intro text size overlap _ c hc
    unfold chunk_fixed at hc
    have himg : ∀ d ∈ (fixedWindows text size overlap).map pyStrip,
        ∃ w, d = pyStrip w := by
      intro d hd
      rcases List.mem_map.mp hd with ⟨w, _, hw⟩
      exact ⟨w, hw.symm⟩
    exact mem_filter_strip _ himg c hc
  · intro text max_len cs hok c hc
    simp only [chunk_by_sentences] at hok
    split at hok
    · exact absurd hok (by simp)
    · have : cs = chunkBySentencesCore text max_len.toNat := by
        injection hok with h; exact h.symm
      exact chunkBySentencesCore_clean text max_len.toNat c (this ▸ hc)
  · intro text max_len cs hok c hc
    simp only [chunk_by_paragraphs] at hok
    split at hok
    · exact absurd hok (by simp)
    · have : cs = chunkByParagraphsCore text max_len.toNat := by
        injection hok with h; exact h.symm
      exact chunkByParagraphsCore_clean text max_len.toNat c (this ▸ hc)

/-- C1 witness: concrete instantiation of all three parts. -/
theorem chunkers_no_blank_chunks_witness :
    ((2 : Nat) < 3 ∧
      ∀ c ∈ chunk_fixed " a b ".toList 3 2, c ≠ [] ∧ c.all pyIsSpace = false) ∧
    (chunk_by_sentences (.str "Hi. There. ".toList) 6 =
        .ok (chunkBySentencesCore "Hi. There. ".toList 6) ∧
      ∀ c ∈ chunkBySentencesCore "Hi. There. ".toList 6,
        c ≠ [] ∧ c.all pyIsSpace = false) ∧
    (chunk_by_paragraphs (.str "a\n\n \n\nbb".toList) 4 =
        .ok (chunkByParagraphsCore "a\n\n \n\nbb".toList 4) ∧
      ∀ c ∈ chunkByParagraphsCore "a\n\n \n\nbb".toList 4,
        c ≠ [] ∧ c.all pyIsSpace = false) := by
  refine ⟨⟨by decide, chunkers_no_blank_chunks.1 " a b ".toList 3 2 (by decide)⟩,
    ⟨by rfl, chunkers_no_blank_chunks.2.1 "Hi. There. ".toList 6
      (chunkBySentencesCore "Hi. There. ".toList 6) (by rfl)⟩,
    ⟨by rfl, chunkers_no_blank_chunks.2.2 "a\n\n \n\nbb".toList 4
      (chunkByParagraphsCore "a\n\n \n\nbb".toList 4) (by rfl)⟩⟩

/-! Section: Fixed-window chunker: termination and window structure -/

theorem chunkFixedLoop_isSome (tokens : List Char) (size overlap : Nat)
    (hso : overlap < size) :
    ∀ (fuel i : Nat), tokens.length - i < fuel →
      (chunkFixedLoop tokens size overlap i fuel).isSome = true := by
  intro fuel
  induction fuel with
  | zero => intro i h; omega
  | succ fuel ih =>
      intro i h
      by_cases hi : i < tokens.length
      · have hrec := ih (i + (size - overlap)) (by omega)
        simp only [chunkFixedLoop]
        rw [if_pos hi]
        cases hm : chunkFixedLoop tokens size overlap (i + (size - overlap)) fuel with
        | some ws => simp
        | none => rw [hm] at hrec; simp at hrec
      · simp only [chunkFixedLoop]
        rw [if_neg hi]
        simp

/-- C9: for every string, `chunk_fixed`'s loop terminates whenever
`size > overlap ≥ 0` — `length + 1` iterations of fuel are enough, since
the offset advances by `size - overlap ≥ 1` each round. -/
theorem chunk_fixed_terminates (text : List Char) (size overlap : Nat)
    (h : overlap < size) :
    (chunkFixedLoop text size overlap 0 (text.length + 1)).isSome = true :=
  chunkFixedLoop_isSome text size overlap h (text.length + 1) 0 (by omega)

/-- C9 witness. -/
theorem chunk_fixed_terminates_witness :
    (1 : Nat) < 2 ∧
      (chunkFixedLoop "abc".toList 2 1 0 ("abc".toList.length + 1)).isSome = true :=
  ⟨by decide, chunk_fixed_terminates "abc".toList 2 1 (by decide)⟩

theorem chunkFixedLoop_spec (tokens : List Char) (size overlap : Nat)
    (hso : overlap < size) :
    ∀ (fuel i : Nat), tokens.length - i < fuel →
      ∃ ws, chunkFixedLoop tokens size overlap i fuel = some ws ∧
        ∀ j < ws.length, ws.getD j [] =
          (tokens.drop (i + j * (size - overlap))).take size := by
  intro fuel
  induction fuel with
  | zero => intro i h; omega
  | succ fuel ih =>
      intro i h
      by_cases hi : i < tokens.length
      · obtain ⟨ws, hws, hj⟩ := ih (i + (size - overlap)) (by omega)
        refine ⟨(tokens.drop i).take size :: ws, ?_, ?_⟩
        · simp only [chunkFixedLoop]
          rw [if_pos hi, hws]
        · intro j hjlt
          cases j with
          | zero => simp
          | succ j =>
              have hrec := hj j (by simpa using hjlt)
              simp only [List.getD_cons_succ]
              rw [hrec]
              have harith : i + (size - overlap) + j * (size - overlap) =
                  i + (j + 1) * (size - overlap) := by ring
              rw [harith]
      · refine ⟨[], ?_, by simp⟩
        simp only [chunkFixedLoop]
        rw [if_neg hi]

/-- C3 (amended): with `size > overlap ≥ 0`, the raw windows start at
offsets `0, size-overlap, 2*(size-overlap), …` and are `take size` slices,
so each raw window has length at most `size`; the region shared by two
consecutive raw windows is `drop (size-overlap)` of the earlier = `take
overlap` of the later, and it has length exactly `overlap` whenever the
earlier window is full (length `size`) — for a truncated earlier window it
can be shorter. -/
theorem fixedWindows_spec (text : List Char) (size overlap : Nat)
    (h : overlap < size) :
    (∀ j < (fixedWindows text size overlap).length,
      (fixedWindows text size overlap).getD j [] =
        (text.drop (j * (size - overlap))).take size) ∧
    (∀ w ∈ fixedWindows text size overlap, w.length ≤ size) ∧
    (∀ j, j + 1 < (fixedWindows text size overlap).length →
      ((fixedWindows text size overlap).getD j []).drop (size - overlap) =
        ((fixedWindows text size overlap).getD (j + 1) []).take overlap ∧
      (((fixedWindows text size overlap).getD j []).length = size →
        (((fixedWindows text size overlap).getD j []).drop (size - overlap)).length
          = overlap)) := by
  obtain ⟨ws, hws, hj⟩ :=
    chunkFixedLoop_spec text size overlap h (text.length + 1) 0 (by omega)
  have hfw : fixedWindows text size overlap = ws := by
    unfold fixedWindows
    rw [hws]
    rfl
  rw [hfw]
  have hj0 : ∀ j < ws.length, ws.getD j [] =
      (text.drop (j * (size - overlap))).take size := by
    intro j hjlt
    have := hj j hjlt
    simpa using this
  refine ⟨hj0, ?_, ?_⟩
  · intro w hw
    obtain ⟨j, hjlt, hjw⟩ := List.mem_iff_getElem.mp hw
    have hgd : ws.getD j [] = w := by
      rw [List.getD_eq_getElem ws [] hjlt, hjw]
    rw [← hgd, hj0 j hjlt]
    simp [List.length_take]
  · intro j hjlt
    have hjlt' : j < ws.length := by omega
    rw [hj0 j hjlt', hj0 (j + 1) hjlt]
    constructor
    · rw [List.drop_take]
      have h1 : (text.drop (j * (size - overlap))).drop (size - overlap) =
          text.drop ((j + 1) * (size - overlap)) := by
        rw [List.drop_drop]
        have : j * (size - overlap) + (size - overlap) =
            (j + 1) * (size - overlap) := by ring
        rw [this]
      rw [h1, List.take_take]
      have h2 : size - (size - overlap) = overlap := by omega
      have h3 : min overlap size = overlap := by omega
      rw [h2, h3]
    · intro hfull
      rw [List.length_drop, hfull]
      omega

/-- C3 counterexample: for text `"ab"`, `size = 3`, `overlap = 2`, the two
consecutive raw windows are `"ab"` and `"b"`; the shared region has length
`1 ≠ overlap = 2` (the earlier window is truncated by the end of the
text), refuting "every pair of consecutive raw windows shares exactly
`overlap` characters". -/
theorem fixedWindows_overlap_counterexample :
    0 + 1 < (fixedWindows "ab".toList 3 2).length ∧
    ¬ ((((fixedWindows "ab".toList 3 2).getD 0 []).drop (3 - 2)).length = 2) := by
  decide

/-- C3 witness: concrete instantiation at `text = "abcd"`, `size = 3`,
`overlap = 2`. -/
theorem fixedWindows_spec_witness :
    (2 : Nat) < 3 ∧
    ((∀ j < (fixedWindows "abcd".toList 3 2).length,
      (fixedWindows "abcd".toList 3 2).getD j [] =
        ("abcd".toList.drop (j * (3 - 2))).take 3) ∧
    (∀ w ∈ fixedWindows "abcd".toList 3 2, w.length ≤ 3) ∧
    (∀ j, j + 1 < (fixedWindows "abcd".toList 3 2).length →
      ((fixedWindows "abcd".toList 3 2).getD j []).drop (3 - 2) =
        ((fixedWindows "abcd".toList 3 2).getD (j + 1) []).take 2 ∧
      (((fixedWindows "abcd".toList 3 2).getD j []).length = 3 →
        (((fixedWindows "abcd".toList 3 2).getD j []).drop (3 - 2)).length = 2))) :=
  ⟨by decide, fixedWindows_spec "abcd".toList 3 2 (by decide)⟩

/-! Section: Sentence chunker: abbreviation guard -/

theorem sentStep_nil (m : Nat) (cs : List (List Char)) (s : List Char) :
    sentStep m (cs, []) s = (cs, s) := by
  unfold sentStep
  dsimp only
  rw [if_neg (by decide : ¬ (lastWord [] ∈ COMMON_ABBREVIATIONS))]
  split <;> simp

theorem sentStep_abbrev (m : Nat) (cs : List (List Char)) (buf s : List Char)
    (h : lastWord buf ∈ COMMON_ABBREVIATIONS) :
    sentStep m (cs, buf) s = (cs, buf ++ ' ' :: s) := by
  unfold sentStep
  dsimp only
  rw [if_pos h]

set_option maxHeartbeats 1000000 in
/-- For every `max_len`, the loop keeps the sample sentence about
Dr. Smith in one piece: after the first sentence candidate the buffer ends
in `"Dr."`, then in `"U.S.A."`, so the guard appends unconditionally both
times. -/
theorem chunkBySentencesCore_drSmith (m : Nat) :
    chunkBySentencesCore "Dr. Smith went to the U.S.A. in 2020.".toList m =
      ["Dr. Smith went to the U.S.A. in 2020.".toList] := by
  have hsplit : splitSentences "Dr. Smith went to the U.S.A. in 2020.".toList =
      ["Dr.".toList, "Smith went to the U.S.A.".toList, "in 2020.".toList] := by
    decide
  have hfold : List.foldl (sentStep m) ([], [])
      ["Dr.".toList, "Smith went to the U.S.A.".toList, "in 2020.".toList] =
      ([], "Dr. Smith went to the U.S.A. in 2020.".toList) := by
    rw [List.foldl_cons, sentStep_nil m [] "Dr.".toList,
      List.foldl_cons,
      sentStep_abbrev m [] "Dr.".toList "Smith went to the U.S.A.".toList
        (by decide),
      List.foldl_cons,
      sentStep_abbrev m []
        ("Dr.".toList ++ ' ' :: "Smith went to the U.S.A.".toList)
        "in 2020.".toList (by decide),
      List.foldl_nil]
    decide
  simp only [chunkBySentencesCore]
  rw [hsplit, hfold]
  decide

/-- C2 (amended): (i) whenever the last whitespace-delimited token of the
buffer is a known abbreviation, the next sentence candidate is appended
unconditionally, with no length test; (ii) consequently, chunking the text
`"Dr. Smith went to the U.S.A. in 2020."` itself never produces a chunk
ending immediately after `"Dr."` or `"U.S.A."`, for every `max_len`.
(The universal form over all texts *containing* that sentence is refuted
by `sentence_abbrev_guard_counterexample`: a later, final `"Dr."` in the
text is flushed by the end-of-loop flush without any guard.) -/
theorem sentence_abbrev_guard :
    (∀ (m : Nat) (cs : List (List Char)) (buf s : List Char),
      lastWord buf ∈ COMMON_ABBREVIATIONS →
      sentStep m (cs, buf) s = (cs, buf ++ ' ' :: s)) ∧
    (∀ (m : Nat) (c : List Char),
      c ∈ chunkBySentencesCore "Dr. Smith went to the U.S.A. in 2020.".toList m →
      ¬ ("Dr.".toList <:+ c) ∧ ¬ ("U.S.A.".toList <:+ c)) := by
  constructor
  · exact sentStep_abbrev
  · intro m c hc
    rw [chunkBySentencesCore_drSmith] at hc
    have hcq : c = "Dr. Smith went to the U.S.A. in 2020.".toList := by
      simpa using hc
    rw [hcq]
    constructor <;> decide

/-- C2 witness. -/
theorem sentence_abbrev_guard_witness :
    (lastWord "Dr.".toList ∈ COMMON_ABBREVIATIONS ∧
      sentStep 5 ([], "Dr.".toList) "Hello there friend.".toList =
        ([], "Dr.".toList ++ ' ' :: "Hello there friend.".toList)) ∧
    ("Dr. Smith went to the U.S.A. in 2020.".toList ∈
        chunkBySentencesCore "Dr. Smith went to the U.S.A. in 2020.".toList 10 ∧
      (¬ ("Dr.".toList <:+ "Dr. Smith went to the U.S.A. in 2020.".toList) ∧
       ¬ ("U.S.A.".toList <:+ "Dr. Smith went to the U.S.A. in 2020.".toList))) :=
  ⟨⟨by decide, sentence_abbrev_guard.1 5 [] "Dr.".toList
      "Hello there friend.".toList (by decide)⟩,
   ⟨by decide, sentence_abbrev_guard.2 10
      "Dr. Smith went to the U.S.A. in 2020.".toList (by decide)⟩⟩

/-- C2 counterexample: the text
`"Dr. Smith went to the U.S.A. in 2020. Dr."` contains
`"Dr. Smith went to the U.S.A. in 2020."`, yet `chunk_by_sentences` (at
the default `max_len = 1000`) produces a chunk that ends immediately after
`"Dr."` — the claim's consequence does not hold for *every* text
containing the sample sentence. -/
theorem sentence_abbrev_guard_counterexample :
    ("Dr. Smith went to the U.S.A. in 2020.".toList <:+:
      "Dr. Smith went to the U.S.A. in 2020. Dr.".toList) ∧
    ∃ c ∈ chunkBySentencesCore
      "Dr. Smith went to the U.S.A. in 2020. Dr.".toList 1000,
      "Dr.".toList <:+ c := by
  constructor
  · decide
  · decide

/-! Section: Sentence chunker: length bound (instrumented by the guard flag) -/

theorem sentStepG_noguard_append (m : Nat) (cs : List (List Char × Bool))
    (b : List Char) (g : Bool) (s : List Char)
    (h : lastWord b ∉ COMMON_ABBREVIATIONS) (hlen : b.length + s.length < m) :
    sentStepG m (cs, b, g) s =
      (cs, (if b = [] then s else b ++ ' ' :: s), g) := by
  unfold sentStepG
  dsimp only
  rw [if_neg h, if_pos hlen]

theorem sentStepG_noguard_flush (m : Nat) (cs : List (List Char × Bool))
    (b : List Char) (g : Bool) (s : List Char)
    (h : lastWord b ∉ COMMON_ABBREVIATIONS) (hlen : m ≤ b.length + s.length) :
    sentStepG m (cs, b, g) s =
      ((if b = [] then cs else cs ++ [(pyStrip b, g)]), s, false) := by
  unfold sentStepG
  dsimp only
  rw [if_neg h, if_neg (by omega)]

theorem sentStepG_fst (m : Nat) (cs : List (List Char × Bool)) (b : List Char)
    (g : Bool) (s : List Char) :
    ((sentStepG m (cs, b, g) s).1.map Prod.fst, (sentStepG m (cs, b, g) s).2.1)
      = sentStep m (cs.map Prod.fst, b) s := by
  unfold sentStepG sentStep
  dsimp only
  by_cases h1 : lastWord b ∈ COMMON_ABBREVIATIONS
  · rw [if_pos h1, if_pos h1]
  · rw [if_neg h1, if_neg h1]
    by_cases h2 : b.length + s.length < m
    · rw [if_pos h2, if_pos h2]
    · rw [if_neg h2, if_neg h2]
      by_cases h3 : b = [] <;> simp [h3]

theorem sentFoldG_fst (m : Nat) :
    ∀ (l : List (List Char)) (cs : List (List Char × Bool)) (b : List Char)
      (g : Bool),
      ((l.foldl (sentStepG m) (cs, b, g)).1.map Prod.fst,
        (l.foldl (sentStepG m) (cs, b, g)).2.1) =
        l.foldl (sentStep m) (cs.map Prod.fst, b) := by
  intro l
  induction l with
  | nil => intro cs b g; rfl
  | cons s rest ih =>
      intro cs b g
      simp only [List.foldl_cons]
      rw [← sentStepG_fst m cs b g s]
      exact ih (sentStepG m (cs, b, g) s).1 (sentStepG m (cs, b, g) s).2.1
        (sentStepG m (cs, b, g) s).2.2

theorem map_fst_filter_truthy (l : List (List Char × Bool)) :
    (l.filter (fun c => pyTruthy c.1)).map Prod.fst =
      (l.map Prod.fst).filter pyTruthy := by
  induction l with
  | nil => rfl
  | cons p rest ih =>
      by_cases hp : pyTruthy p.1
      · simp [List.filter_cons, hp, ih]
      · simp [List.filter_cons, hp, ih]

/-- Erasing the guard flags of the instrumented chunker yields exactly the
chunks of the real one. -/
theorem chunkBySentencesG_fst (text : List Char) (m : Nat) :
    (chunkBySentencesG text m).map Prod.fst = chunkBySentencesCore text m := by
  unfold chunkBySentencesG chunkBySentencesCore
  dsimp only
  have h := sentFoldG_fst m (splitSentences text) [] [] false
  have h1 : ((splitSentences text).foldl (sentStepG m) ([], [], false)).1.map
      Prod.fst = ((splitSentences text).foldl (sentStep m) ([], [])).1 :=
    congrArg Prod.fst h
  have h2 : ((splitSentences text).foldl (sentStepG m) ([], [], false)).2.1 =
      ((splitSentences text).foldl (sentStep m) ([], [])).2 :=
    congrArg Prod.snd h
  rw [map_fst_filter_truthy]
  rw [h2]
  by_cases hb : ((splitSentences text).foldl (sentStep m) ([], [])).2 = []
  · rw [if_pos hb, if_pos hb, h1]
  · rw [if_neg hb, if_neg hb]
    simp [h1]

/-- The fold invariant for the length bound: every collected non-guard
chunk is short (≤ `m`) or the strip of a single over-long sentence
candidate, and a non-guard buffer is short or a single over-long
candidate. -/
theorem sentFoldG_invariant (m : Nat) (raw : List (List Char)) :
    ∀ (l : List (List Char)), (∀ s ∈ l, s ∈ raw) →
      ∀ (cs : List (List Char × Bool)) (b : List Char) (g : Bool),
      (∀ p ∈ cs, p.2 = false → p.1.length ≤ m ∨
        ∃ s ∈ raw, p.1 = pyStrip s ∧ m < s.length) →
      (g = false → b.length ≤ m ∨ (b ∈ raw ∧ m < b.length)) →
      (∀ p ∈ (l.foldl (sentStepG m) (cs, b, g)).1, p.2 = false →
        p.1.length ≤ m ∨ ∃ s ∈ raw, p.1 = pyStrip s ∧ m < s.length) ∧
      ((l.foldl (sentStepG m) (cs, b, g)).2.2 = false →
        (l.foldl (sentStepG m) (cs, b, g)).2.1.length ≤ m ∨
        ((l.foldl (sentStepG m) (cs, b, g)).2.1 ∈ raw ∧
          m < (l.foldl (sentStepG m) (cs, b, g)).2.1.length)) := by
  intro l
  induction l with
  | nil =>
      intro _ cs b g hcs hb
      exact ⟨hcs, hb⟩
  | cons s rest ih =>
      intro hsub cs b g hcs hb
      have hs : s ∈ raw := hsub s (by simp)
      have hsub' : ∀ t ∈ rest, t ∈ raw := fun t ht => hsub t (by simp [ht])
      simp only [List.foldl_cons]
      by_cases h1 : lastWord b ∈ COMMON_ABBREVIATIONS
      · have hstep : sentStepG m (cs, b, g) s = (cs, b ++ ' ' :: s, true) := by
          unfold sentStepG
          dsimp only
          rw [if_pos h1]
        rw [hstep]
        exact ih hsub' cs (b ++ ' ' :: s) true hcs (by simp)
      · by_cases h2 : b.length + s.length < m
        · rw [sentStepG_noguard_append m cs b g s h1 h2]
          refine ih hsub' cs _ g hcs ?_
          intro hg
          left
          by_cases h3 : b = [] <;> simp [h3] <;> omega
        · rw [sentStepG_noguard_flush m cs b g s h1 (by omega)]
          refine ih hsub' _ s false ?_ ?_
          · intro p hp hpfalse
            by_cases h3 : b = []
            · rw [if_pos h3] at hp
              exact hcs p hp hpfalse
            · rw [if_neg h3] at hp
              rcases List.mem_append.mp hp with hold | hnew
              · exact hcs p hold hpfalse
              · have hpb : p = (pyStrip b, g) := by simpa using hnew
                rw [hpb] at hpfalse ⊢
                rcases hb hpfalse with hshort | ⟨hmem, hlong⟩
                · left
                  exact le_trans (pyStrip_length_le b) hshort
                · right
                  exact ⟨b, hmem, rfl, hlong⟩
          · intro _
            rcases Nat.lt_or_ge m s.length with hlong | hshort
            · right; exact ⟨hs, hlong⟩
            · left; omega

/-- C4 (amended): in `chunk_by_sentences`, when the abbreviation guard
does not fire, a sentence is appended to a non-empty buffer (separated by
a single space) exactly while `len(buffer) + len(sentence) < max_len`, and
otherwise the buffer is flushed and the new buffer starts as that
sentence; consequently every output chunk built without the guard either
has length at most `max_len` (not strictly below: the separating space can
make it exactly `max_len`) or is the strip of a single sentence candidate
that is itself longer than `max_len`.  The flag-erasure conjunct ties the
instrumented chunker to the real one. -/
theorem sentence_length_bound :
    (∀ (m : Nat) (cs : List (List Char × Bool)) (b : List Char) (g : Bool)
      (s : List Char), lastWord b ∉ COMMON_ABBREVIATIONS →
      (b.length + s.length < m →
        sentStepG m (cs, b, g) s =
          (cs, (if b = [] then s else b ++ ' ' :: s), g)) ∧
      (m ≤ b.length + s.length →
        sentStepG m (cs, b, g) s =
          ((if b = [] then cs else cs ++ [(pyStrip b, g)]), s, false))) ∧
    (∀ (text : List Char) (m : Nat),
      (chunkBySentencesG text m).map Prod.fst = chunkBySentencesCore text m) ∧
    (∀ (text : List Char) (m : Nat) (p : List Char × Bool),
      p ∈ chunkBySentencesG text m → p.2 = false →
      p.1.length ≤ m ∨
        ∃ s ∈ splitSentences text, p.1 = pyStrip s ∧ m < s.length) := by
  refine ⟨?_, chunkBySentencesG_fst, ?_⟩
  · intro m cs b g s h
    exact ⟨sentStepG_noguard_append m cs b g s h,
      sentStepG_noguard_flush m cs b g s h⟩
  · intro text m p hp hfalse
    unfold chunkBySentencesG at hp
    dsimp only at hp
    have hinv := sentFoldG_invariant m (splitSentences text)
      (splitSentences text) (fun _ hs => hs) [] [] false (by simp) (by simp)
    rcases List.mem_filter.mp hp with ⟨hp', _⟩
    split at hp'
    · exact hinv.1 p hp' hfalse
    · rcases List.mem_append.mp hp' with hold | hnew
      · exact hinv.1 p hold hfalse
      · have hpb : p =
            (pyStrip ((splitSentences text).foldl (sentStepG m)
              ([], [], false)).2.1,
             ((splitSentences text).foldl (sentStepG m) ([], [], false)).2.2) := by
          simpa using hnew
        rw [hpb] at hfalse ⊢
        rcases hinv.2 hfalse with hshort | ⟨hmem, hlong⟩
        · left
          exact le_trans (pyStrip_length_le _) hshort
        · right
          exact ⟨_, hmem, rfl, hlong⟩

/-- C4 witness. -/
theorem sentence_length_bound_witness :
    (lastWord "ab.".toList ∉ COMMON_ABBREVIATIONS ∧
      (4 : Nat) ≤ "ab.".toList.length + "x.".toList.length ∧
      sentStepG 4 ([], "ab.".toList, false) "x.".toList =
        ((if "ab.".toList = [] then ([] : List (List Char × Bool))
          else [] ++ [(pyStrip "ab.".toList, false)]), "x.".toList, false)) ∧
    ((("ab. c.".toList, false) ∈ chunkBySentencesG "ab. c.".toList 7) ∧
      ("ab. c.".toList.length ≤ 7 ∨
        ∃ s ∈ splitSentences "ab. c.".toList,
          "ab. c.".toList = pyStrip s ∧ 7 < s.length)) :=
  ⟨⟨by decide, by decide,
    (sentence_length_bound.1 4 [] "ab.".toList false "x.".toList
      (by decide)).2 (by decide)⟩,
   ⟨by decide,
    sentence_length_bound.2.2 "ab. c.".toList 7 ("ab. c.".toList, false)
      (by decide) rfl⟩⟩

/-- C4 counterexample: on `"ab. c."` with `max_len = 6` the single output
chunk `"ab. c."` was built without the abbreviation guard and has length
exactly `6 = max_len` — not strictly less.  (The append test
`len("ab.") + len("c.") = 5 < 6` passes, but the joining space makes the
buffer 6 characters long.) -/
theorem sentence_length_bound_counterexample :
    chunkBySentencesCore "ab. c.".toList 6 = ["ab. c.".toList] ∧
    ∃ p ∈ chunkBySentencesG "ab. c.".toList 6,
      p.2 = false ∧ ¬ (p.1.length < 6) := by
  constructor
  · decide
  · decide

/-! Section: Paragraph chunker: greedy accumulation and oversized paragraphs -/

theorem paraStep_append (m : Nat) (cs : List (List Char)) (b p : List Char)
    (h : b.length + p.length < m) :
    paraStep m (cs, b) p = (cs, b ++ '\n' :: '\n' :: p) := by
  unfold paraStep
  dsimp only
  rw [if_pos h]

theorem paraStep_flush (m : Nat) (cs : List (List Char)) (b p : List Char)
    (h : m ≤ b.length + p.length) :
    paraStep m (cs, b) p = (cs ++ [pyStrip b], p) := by
  unfold paraStep
  dsimp only
  rw [if_neg (by omega)]

theorem paraFold_mono (m : Nat) :
    ∀ (l : List (List Char)) (st : List (List Char) × List Char)
      (c : List Char), c ∈ st.1 → c ∈ (l.foldl (paraStep m) st).1 := by
  intro l
  induction l with
  | nil => intro st c hc; exact hc
  | cons p rest ih =>
      intro st c hc
      simp only [List.foldl_cons]
      refine ih (paraStep m st p) c ?_
      unfold paraStep
      dsimp only
      split
      · exact hc
      · exact List.mem_append_left _ hc

theorem paraFold_oversized_buffer (m : Nat) :
    ∀ (l : List (List Char)) (cs : List (List Char)) (b : List Char),
      m < b.length →
      pyStrip b ∈ (l.foldl (paraStep m) (cs, b)).1 ∨
        (l.foldl (paraStep m) (cs, b)).2 = b := by
  intro l
  induction l with
  | nil => intro cs b _; right; rfl
  | cons p rest ih =>
      intro cs b hb
      simp only [List.foldl_cons]
      rw [paraStep_flush m cs b p (by omega)]
      left
      exact paraFold_mono m rest (cs ++ [pyStrip b], p) (pyStrip b)
        (List.mem_append_right _ (by simp))

theorem paraFold_oversized_mem (m : Nat) :
    ∀ (l : List (List Char)) (st : List (List Char) × List Char)
      (para : List Char), para ∈ l → m < para.length →
      pyStrip para ∈ (l.foldl (paraStep m) st).1 ∨
        (l.foldl (paraStep m) st).2 = para := by
  intro l
  induction l with
  | nil => intro st para hmem; simp at hmem
  | cons p rest ih =>
      intro st para hmem hlen
      obtain ⟨cs0, b0⟩ := st
      simp only [List.foldl_cons]
      rcases List.mem_cons.mp hmem with hhead | htail
      · subst hhead
        rw [paraStep_flush m cs0 b0 para (by omega)]
        exact paraFold_oversized_buffer m rest (cs0 ++ [pyStrip b0]) para hlen
      · exact ih (paraStep m (cs0, b0) p) para htail hlen

/-- C5 (amended): in `chunk_by_paragraphs`, a paragraph is appended to the
buffer exactly when `len(buffer) + len(paragraph) < max_len` and otherwise
the buffer is flushed (as its strip) and the new buffer starts as that
paragraph; consequently an oversized paragraph (longer than `max_len`) is
never split: its whitespace-trimmed text occurs as a whole output chunk
(or is dropped entirely if trimming leaves nothing). -/
theorem paragraph_oversized_whole :
    (∀ (m : Nat) (cs : List (List Char)) (b p : List Char),
      (b.length + p.length < m →
        paraStep m (cs, b) p = (cs, b ++ '\n' :: '\n' :: p)) ∧
      (m ≤ b.length + p.length →
        paraStep m (cs, b) p = (cs ++ [pyStrip b], p))) ∧
    (∀ (text : List Char) (m : Nat) (para : List Char),
      para ∈ paragraphsOf text → m < para.length →
      pyStrip para = [] ∨ pyStrip para ∈ chunkByParagraphsCore text m) := by
  constructor
  · intro m cs b p
    exact ⟨paraStep_append m cs b p, paraStep_flush m cs b p⟩
  · intro text m para hmem hlen
    by_cases hstrip : pyStrip para = []
    · exact Or.inl hstrip
    · right
      unfold chunkByParagraphsCore
      dsimp only
      have hA := paraFold_oversized_mem m (paragraphsOf text) ([], []) para
        hmem hlen
      have hne : para ≠ [] := by
        intro hnil
        rw [hnil] at hlen
        simp at hlen
      rcases hA with hchunks | hbuf
      · have hpre : pyStrip para ∈
            (if ((paragraphsOf text).foldl (paraStep m) ([], [])).2 = []
              then ((paragraphsOf text).foldl (paraStep m) ([], [])).1
              else ((paragraphsOf text).foldl (paraStep m) ([], [])).1 ++
                [pyStrip ((paragraphsOf text).foldl (paraStep m) ([], [])).2]) := by
          split
          · exact hchunks
          · exact List.mem_append_left _ hchunks
        refine List.mem_filter.mpr ⟨hpre, ?_⟩
        simp only [pyTruthy]
        simpa using hstrip
      · have hbne : ((paragraphsOf text).foldl (paraStep m) ([], [])).2 ≠ [] := by
          rw [hbuf]; exact hne
        have hpre : pyStrip para ∈
            (if ((paragraphsOf text).foldl (paraStep m) ([], [])).2 = []
              then ((paragraphsOf text).foldl (paraStep m) ([], [])).1
              else ((paragraphsOf text).foldl (paraStep m) ([], [])).1 ++
                [pyStrip ((paragraphsOf text).foldl (paraStep m) ([], [])).2]) := by
          rw [if_neg hbne, hbuf]
          exact List.mem_append_right _ (by simp)
        refine List.mem_filter.mpr ⟨hpre, ?_⟩
        simp only [pyTruthy]
        simpa using hstrip

/-- C5 witness. -/
theorem paragraph_oversized_whole_witness :
    (" bbbbbb".toList ∈ paragraphsOf "aaaa\n\n bbbbbb".toList ∧
      5 < " bbbbbb".toList.length) ∧
    (pyStrip " bbbbbb".toList = [] ∨
      pyStrip " bbbbbb".toList ∈
        chunkByParagraphsCore "aaaa\n\n bbbbbb".toList 5) :=
  ⟨⟨by decide, by decide⟩,
   paragraph_oversized_whole.2 "aaaa\n\n bbbbbb".toList 5 " bbbbbb".toList
     (by decide) (by decide)⟩

/-- C5 counterexample: for the text `"aaaa\n\n bbbbbb"` with `max_len = 5`
the second paragraph is `" bbbbbb"` (length 7 > 5), but the output chunks
are `["aaaa", "bbbbbb"]`: flushing strips the leading space, so the
paragraph's verbatim text appears contiguously in *no* output chunk
(rather than in exactly one). -/
theorem paragraph_oversized_whole_counterexample :
    (" bbbbbb".toList ∈ paragraphsOf "aaaa\n\n bbbbbb".toList ∧
      5 < " bbbbbb".toList.length) ∧
    chunkByParagraphsCore "aaaa\n\n bbbbbb".toList 5 =
      ["aaaa".toList, "bbbbbb".toList] ∧
    ∀ c ∈ chunkByParagraphsCore "aaaa\n\n bbbbbb".toList 5,
      ¬ (" bbbbbb".toList <:+: c) := by
  refine ⟨⟨?_, ?_⟩, ?_, ?_⟩
  · decide
  · decide
  · decide
  · decide

/-! Section: Search error handling -/

/-- C6: if the embedding function fails on the query, or the store
interaction fails on the search query built from it, `search_documents`
returns the empty list instead of propagating the failure. -/
theorem search_failure_empty {E : Type}
    (embed_fn : List Char → Except E (List Int))
    (runQuery : List Int → Nat → List Char × List (List Char) → Nat →
      Except E (List SearchRow))
    (query_text : List Char) (top_k : Nat)
    (filename strategy : Option (List Char)) :
    ((∃ e, embed_fn query_text = .error e) ∨
      (∃ v, embed_fn query_text = .ok v ∧
        ∃ e, runQuery v v.length (build_where_clause filename strategy) top_k =
          .error e)) →
    search_documents embed_fn runQuery query_text top_k filename strategy = [] := by
  intro h
  unfold search_documents
  by_cases hq : pyStrip query_text = []
  · rw [if_pos hq]
  · rw [if_neg hq]
    rcases h with ⟨e, he⟩ | ⟨v, hv, e, he⟩
    · simp [he, Bind.bind, Except.bind]
    · simp [hv, he, Bind.bind, Except.bind]

/-- C6 witness: a failing embedding function on a non-blank query. -/
theorem search_failure_empty_witness :
    (∃ e : Unit,
      (fun (_ : List Char) => (Except.error () : Except Unit (List Int)))
        "hi".toList = Except.error e) ∧
    search_documents (fun _ => Except.error ())
      (fun _ _ _ _ => Except.ok ([] : List SearchRow)) "hi".toList 5 none none
      = [] :=
  ⟨⟨(), rfl⟩,
   search_failure_empty (fun _ => Except.error ())
     (fun _ _ _ _ => Except.ok ([] : List SearchRow)) "hi".toList 5 none none
     (Or.inl ⟨(), rfl⟩)⟩

/-! Section: Orchestrator: strategy dispatch and exception swallowing -/

/-- C7 (amended): the strategy dispatch (`split_text`) fails with a
`ValueError` for every name outside `{"fixed", "sentence", "paragraph"}`
(it never silently defaults to some chunker), and the error propagates to
`split_text`'s caller inside the pipeline; but `process_file` wraps the
pipeline in `except Exception`, logs and returns normally, so the
invalid-argument failure is **not** surfaced to the caller of the
orchestration: `process_file` returns normally on every input. -/
theorem strategy_dispatch_invalid_argument :
    (∀ (text strategy : List Char),
      strategy ∉ ["fixed".toList, "sentence".toList, "paragraph".toList] →
      split_text text strategy =
        .error (.valueError ("Unknown strategy: ".toList ++ strategy))) ∧
    (∀ (E : Type) (load_file : List Char → Except PyErr (List Char))
      (get_embedding : List Char → Except E (List Int))
      (store_insert : List Char → List Int → List Char → List Char →
        Except E Unit)
      (path strategy : List Char),
      process_file load_file get_embedding store_insert path strategy =
        .ok ()) := by
  constructor
  · intro text strategy h
    have h1 : strategy ≠ "fixed".toList := by intro hc; exact h (by simp [hc])
    have h2 : strategy ≠ "sentence".toList := by intro hc; exact h (by simp [hc])
    have h3 : strategy ≠ "paragraph".toList := by intro hc; exact h (by simp [hc])
    unfold split_text
    rw [if_neg h1, if_neg h2, if_neg h3]
  · intro E load_file get_embedding store_insert path strategy
    unfold process_file
    split <;> rfl

/-- C7 witness. -/
theorem strategy_dispatch_invalid_argument_witness :
    ("bogus".toList ∉ ["fixed".toList, "sentence".toList, "paragraph".toList] ∧
      split_text "text".toList "bogus".toList =
        .error (.valueError ("Unknown strategy: ".toList ++ "bogus".toList))) ∧
    process_file (fun _ => .ok "text".toList)
      (fun _ => (Except.ok [] : Except Unit (List Int)))
      (fun _ _ _ _ => .ok ()) "f.pdf".toList "bogus".toList = .ok () :=
  ⟨⟨by decide,
    strategy_dispatch_invalid_argument.1 "text".toList "bogus".toList
      (by decide)⟩,
   strategy_dispatch_invalid_argument.2 Unit (fun _ => .ok "text".toList)
     (fun _ => Except.ok []) (fun _ _ _ _ => .ok ()) "f.pdf".toList
     "bogus".toList⟩

/-- C7 counterexample: with an unknown strategy name the dispatch raises,
yet `process_file` — the orchestration whose caller the claim says always
sees the failure — catches it and returns normally. -/
theorem strategy_dispatch_swallowed_counterexample :
    split_text "text".toList "bogus".toList =
      .error (.valueError ("Unknown strategy: ".toList ++ "bogus".toList)) ∧
    process_file (fun _ => .ok "text".toList)
      (fun _ => (Except.ok [] : Except Unit (List Int)))
      (fun _ _ _ _ => .ok ()) "f.pdf".toList "bogus".toList = .ok () := by
  constructor
  · rfl
  · rfl

/-! Section: Chunker argument validation -/

/-- C8 (amended): the helper-module `chunk_by_sentences` and
`chunk_by_paragraphs` raise `ValueError` for every non-string input and
for every `max_len ≤ 0`, producing no output; the duplicate top-level
`chunker.py` `chunk_by_sentences`, however, performs no `max_len`
validation at all — for string input it returns a normal result for every
`max_len`, including `max_len ≤ 0`. -/
theorem chunker_argument_validation :
    (∀ (t : List Char) (ml : Int), ml ≤ 0 →
      chunk_by_sentences (.str t) ml =
        .error (.valueError "max_len must be greater than 0.".toList)) ∧
    (∀ (tag : Nat) (ml : Int),
      chunk_by_sentences (.other tag) ml =
        .error (.valueError "Input must be a string.".toList)) ∧
    (∀ (t : List Char) (ml : Int), ml ≤ 0 →
      chunk_by_paragraphs (.str t) ml =
        .error (.valueError "max_len must be greater than 0.".toList)) ∧
    (∀ (tag : Nat) (ml : Int),
      chunk_by_paragraphs (.other tag) ml =
        .error (.valueError "Input must be a string.".toList)) ∧
    (∀ (s : List Char) (ml : Int),
      RootChunker.chunk_by_sentences (.str s) ml =
        .ok (chunkBySentencesCore s ml.toNat)) := by
  refine ⟨?_, ?_, ?_, ?_, ?_⟩
  · intro t ml hml
    unfold chunk_by_sentences
    dsimp only
    rw [if_pos hml]
  · intro tag ml; rfl
  · intro t ml hml
    unfold chunk_by_paragraphs
    dsimp only
    rw [if_pos hml]
  · intro tag ml; rfl
  · intro s ml; rfl

/-- C8 witness. -/
theorem chunker_argument_validation_witness :
    ((0 : Int) ≤ 0 ∧
      chunk_by_sentences (.str "abc".toList) 0 =
        .error (.valueError "max_len must be greater than 0.".toList)) ∧
    chunk_by_sentences (.other 7) 5 =
      .error (.valueError "Input must be a string.".toList) ∧
    chunk_by_paragraphs (.str "abc".toList) (-3) =
      .error (.valueError "max_len must be greater than 0.".toList) ∧
    chunk_by_paragraphs (.other 7) 5 =
      .error (.valueError "Input must be a string.".toList) ∧
    RootChunker.chunk_by_sentences (.str "abc".toList) 0 =
      .ok (chunkBySentencesCore "abc".toList (Int.toNat 0)) :=
  ⟨⟨le_refl 0, chunker_argument_validation.1 "abc".toList 0 (le_refl 0)⟩,
   chunker_argument_validation.2.1 7 5,
   chunker_argument_validation.2.2.1 "abc".toList (-3) (by decide),
   chunker_argument_validation.2.2.2.1 7 5,
   chunker_argument_validation.2.2.2.2 "abc".toList 0⟩

/-- C8 counterexample: the top-level `chunker.py` `chunk_by_sentences`
(cited by the claim alongside the helper module's) does **not** fail for
`max_len = 0` on a string input — it returns a normal, non-empty chunk
list. -/
theorem chunker_argument_validation_counterexample :
    RootChunker.chunk_by_sentences (.str "abc".toList) 0 =
      .ok ["abc".toList] := by
  rfl

/-! Section: Database insert error handling -/

/-- C10: `insert_chunk` never propagates an exception: whatever the store
interaction returns — in particular when it fails — the `except` block
logs and the function returns normally, so the batch loop `save_chunks`
attempts every chunk and collects only normal outcomes. -/
theorem insert_chunk_never_raises :
    (∀ (E : Type)
      (store_insert : List Char → List Int → List Char → List Char →
        Except E Unit)
      (chunk_text : List Char) (embedding : List Int)
      (filename strategy : List Char),
      insert_chunk store_insert chunk_text embedding filename strategy =
        .ok ()) ∧
    (∀ (E : Type) (e : E) (chunk_text : List Char) (embedding : List Int)
      (filename strategy : List Char),
      insert_chunk (fun _ _ _ _ => .error e) chunk_text embedding filename
        strategy = .ok ()) ∧
    (∀ (E : Type)
      (store_insert : List Char → List Int → List Char → List Char →
        Except E Unit)
      (chunk_data : List (List Char × List Int)) (filename strategy : List Char),
      save_chunks store_insert chunk_data filename strategy =
        chunk_data.map (fun _ => Except.ok ())) := by
  have hins : ∀ (E : Type)
      (store_insert : List Char → List Int → List Char → List Char →
        Except E Unit)
      (chunk_text : List Char) (embedding : List Int)
      (filename strategy : List Char),
      insert_chunk store_insert chunk_text embedding filename strategy =
        .ok () := by
    intro E store_insert chunk_text embedding filename strategy
    unfold insert_chunk
    split <;> rfl
  refine ⟨hins, fun E e c em f s => hins E _ c em f s, ?_⟩
  intro E store_insert chunk_data filename strategy
  unfold save_chunks
  apply List.map_congr_left
  intro item _
  exact hins E store_insert item.1 item.2 filename strategy
